import Mathlib

/-!
Verification of the python-jtl core (`jtl/__init__.py`): a Lean shallow
embedding of the Sample record, the CSV field-name translation table, the
streaming XML parser, the row-based CSV parser and the parser factory,
together with theorems settling the specified properties.

Modelling conventions:
  * Python `None` is modelled by `Option.none` where a value is an
    optional string, and by `CellVal.absent` where it stands for the
    absent-marker stored in a `Sample` field.
  * A value read from a `csv.DictReader` row can be a string, the
    restkey list of extra cells (for the `None` key on an over-long
    row), or absent; `CellVal` has one constructor for each case.
  * An XML document is a finite element tree (`XElem` / `XForest`);
    `etree.iterparse(source, events=('start','end'))` is modelled by
    the event list `xmlEvents`, start events in preorder and end events
    in postorder, each carrying the element.
-/

namespace JTL

/-- The 17 short field codes of a JMeter sample, in the fixed order of the
`Sample` namedtuple: by, de, dt, ec, hn, it, lb, lt, na, ng, rc, rm, s, sc,
t, tn, ts. -/
inductive Code where
  | «by»
  | de
  | dt
  | ec
  | hn
  | it
  | lb
  | lt
  | na
  | ng
  | rc
  | rm
  | s
  | sc
  | t
  | tn
  | ts
deriving DecidableEq

/-- All 17 codes in the namedtuple field order. -/
def Code.all : List Code :=
  [.«by», .de, .dt, .ec, .hn, .it, .lb, .lt, .na, .ng, .rc, .rm, .s, .sc, .t, .tn, .ts]

/-- The attribute name of a code, as written in the XML form. -/
def Code.name : Code → String
  | .«by» => "by"
  | .de => "de"
  | .dt => "dt"
  | .ec => "ec"
  | .hn => "hn"
  | .it => "it"
  | .lb => "lb"
  | .lt => "lt"
  | .na => "na"
  | .ng => "ng"
  | .rc => "rc"
  | .rm => "rm"
  | .s => "s"
  | .sc => "sc"
  | .t => "t"
  | .tn => "tn"
  | .ts => "ts"

/-- Translation table for CSV fieldnames (`CSV_FIELDNAMES` in the source):
`none` models the Python `None` entries. -/
def CSV_FIELDNAMES : Code → Option String
  | .«by» => some "bytes"
  | .de => none
  | .dt => some "dataType"
  | .ec => none
  | .hn => none
  | .it => none
  | .lb => some "label"
  | .lt => some "Latency"
  | .na => none
  | .ng => none
  | .rc => some "responseCode"
  | .rm => some "responseMessage"
  | .s => some "success"
  | .sc => none
  | .t => some "elapsed"
  | .tn => some "threadName"
  | .ts => some "timeStamp"

/-- A value stored in one field of a `Sample`: the absent-marker (Python
`None`), a string, or the restkey list a `csv.DictReader` stores under the
`None` key when a row has more cells than the header. -/
inductive CellVal where
  | absent
  | str (v : String)
  | extras (vs : List String)
deriving DecidableEq

/-- The `Sample` namedtuple: 17 named fields in their fixed order. -/
structure Sample where
  «by» : CellVal
  de : CellVal
  dt : CellVal
  ec : CellVal
  hn : CellVal
  it : CellVal
  lb : CellVal
  lt : CellVal
  na : CellVal
  ng : CellVal
  rc : CellVal
  rm : CellVal
  s : CellVal
  sc : CellVal
  t : CellVal
  tn : CellVal
  ts : CellVal
deriving DecidableEq

/-- Field access by code. -/
def Sample.get (smp : Sample) : Code → CellVal
  | .«by» => smp.«by»
  | .de => smp.de
  | .dt => smp.dt
  | .ec => smp.ec
  | .hn => smp.hn
  | .it => smp.it
  | .lb => smp.lb
  | .lt => smp.lt
  | .na => smp.na
  | .ng => smp.ng
  | .rc => smp.rc
  | .rm => smp.rm
  | .s => smp.s
  | .sc => smp.sc
  | .t => smp.t
  | .tn => smp.tn
  | .ts => smp.ts

/-- Build a `Sample` from a per-code assignment, as `Sample(**attr_dict)`
does with `attr_dict = dict((attr, f(attr)) for attr in Sample._fields)`. -/
def Sample.ofFun (f : Code → CellVal) : Sample :=
  ⟨f .«by», f .de, f .dt, f .ec, f .hn, f .it, f .lb, f .lt, f .na, f .ng,
   f .rc, f .rm, f .s, f .sc, f .t, f .tn, f .ts⟩

/-- The tuple of a sample's fields, in the fixed namedtuple order. -/
def Sample.toList (smp : Sample) : List CellVal :=
  [smp.«by», smp.de, smp.dt, smp.ec, smp.hn, smp.it, smp.lb, smp.lt, smp.na,
   smp.ng, smp.rc, smp.rm, smp.s, smp.sc, smp.t, smp.tn, smp.ts]

theorem Sample.get_ofFun (f : Code → CellVal) (c : Code) : (Sample.ofFun f).get c = f c := by
  cases c <;> rfl

/-!
The row-based CSV parser. A CSV source is modelled, post `csv.reader`,
as a list of rows (each a list of cell strings). `csv.DictReader` turns
the first row into the fieldnames and each later non-empty row into a
dict: `dict(zip(fieldnames, row))`, then fieldnames beyond the row's
length are set to the restval `None`, and cells beyond the fieldnames'
length are collected in a list under the restkey `None`.
-/

/-- The key/value assignments `csv.DictReader` performs for one row, in
assignment order: fieldnames zipped with the row's cells, with missing
cells giving the restval `None` (modelled `none`). -/
def dictZip : List String → List String → List (String × Option String)
  | [], _ => []
  | f :: fs, [] => (f, none) :: dictZip fs []
  | f :: fs, r :: rs => (f, some r) :: dictZip fs rs

/-- Dict lookup over an assignment list: the value of the last assignment
to the key, `none` when the key was never assigned. -/
def dictGet (d : List (String × Option String)) (k : String) : Option (Option String) :=
  ((d.filter (fun p => p.1 = k)).getLast?).map (fun p => p.2)

/-- The value `row.get(key)` returns on a `DictReader` row, turned into
the `CellVal` it puts into the sample: `key = none` reads the restkey
entry, which holds the extra cells when the row is longer than the
fieldnames and is missing otherwise. -/
def rowGet (fieldnames row : List String) : Option String → CellVal
  | some k =>
      match dictGet (dictZip fieldnames row) k with
      | some (some v) => CellVal.str v
      | some none => CellVal.absent
      | none => CellVal.absent
  | none =>
      if fieldnames.length < row.length then CellVal.extras (row.drop fieldnames.length)
      else CellVal.absent

/-- One iteration of `CSVParser.http_samples`: the sample built from one
data row via `row.get(CSV_FIELDNAMES[attr])` for each field. -/
def rowToSample (fieldnames row : List String) : Sample :=
  Sample.ofFun (fun c => rowGet fieldnames row (CSV_FIELDNAMES c))

/-- The `DictReader` iteration: empty rows are skipped, every other row
yields one sample, in order. -/
def csvLoop (fieldnames : List String) : List (List String) → List Sample
  | [] => []
  | row :: rest =>
      if row = [] then csvLoop fieldnames rest
      else rowToSample fieldnames row :: csvLoop fieldnames rest

/-- `CSVParser.http_samples` on a whole source: the first row is consumed
as the fieldnames, the remaining rows drive `csvLoop`; an empty source
yields nothing. -/
def csvSamples : List (List String) → List Sample
  | [] => []
  | header :: rest => csvLoop header rest

/-- The `CSVParser` object: holds only the source (no I/O at
construction). -/
structure CSVParser where
  source : List (List String)

/-- The lazy sample sequence of the CSV parser, as the list of samples it
yields. -/
def CSVParser.http_samples (p : CSVParser) : List Sample :=
  csvSamples p.source

/-- Python exceptions the parsers can raise. -/
inductive PyError where
  | notImplementedError
deriving DecidableEq

/-- The `BaseParser` object: it has no state of its own. -/
structure BaseParser where

/-- `BaseParser.http_samples`: the body is a plain `raise
NotImplementedError` (no `yield`), so invoking it fails immediately. -/
def BaseParser.http_samples (_p : BaseParser) : Except PyError (List Sample) :=
  Except.error PyError.notImplementedError

/-!
The parser factory. For format detection the source is its raw text,
modelled as the list of its lines; `fp.readline()` on an empty file
returns the empty string.
-/

/-- The first line of the source, `""` for an empty file. -/
def readline (lines : List String) : String := lines.headD ""

/-- The result of the factory: a parser variant holding the source it was
constructed on. -/
inductive Parser where
  | xml (source : List String)
  | csv (source : List String)
deriving DecidableEq

/-- Whether the factory chose the XML variant. -/
def Parser.isXml : Parser → Bool
  | .xml _ => true
  | .csv _ => false

/-- The factory `create_parser`: reads the source's first line and picks
the XML parser when it starts with `<?xml`, the CSV parser otherwise. -/
def createParser (source : List String) : Parser :=
  if (readline source).startsWith "<?xml" then Parser.xml source else Parser.csv source

/-!
The streaming XML parser. A well-formed XML document is a finite tree of
elements, each with a tag, an attribute list and a list of children
(encoded as the mutual type `XForest` so that all functions are
structurally recursive).
-/

mutual
/-- An XML element: tag, attributes, children. -/
inductive XElem where
  | mk (tag : String) (attrs : List (String × String)) (children : XForest)
/-- A sequence of sibling XML elements. -/
inductive XForest where
  | nil
  | cons (head : XElem) (tail : XForest)
end

/-- The tag of an element. -/
def XElem.tag : XElem → String
  | .mk tg _ _ => tg

/-- The attribute list of an element. -/
def XElem.attrs : XElem → List (String × String)
  | .mk _ ats _ => ats

/-- Attribute lookup, `elem.get(key)`: the attribute's value, or `none`
when the element has no attribute of that name. -/
def attrGet (attrs : List (String × String)) (k : String) : Option String :=
  (attrs.find? (fun p => p.1 = k)).map (fun p => p.2)

mutual
/-- The event stream `etree.iterparse(source, events=('start','end'))`
reports for a (sub)tree: a `"start"` event when an element opens and an
`"end"` event when it closes, each carrying the element. -/
def xmlEvents : XElem → List (String × XElem)
  | XElem.mk tg ats children =>
      ("start", XElem.mk tg ats children) ::
        (forestEvents children ++ [("end", XElem.mk tg ats children)])
/-- Event stream of a sibling sequence, left to right. -/
def forestEvents : XForest → List (String × XElem)
  | XForest.nil => []
  | XForest.cons e rest => xmlEvents e ++ forestEvents rest
end

/-- The sample `XMLParser.http_samples` builds from an attribute
dictionary: `dict((attr, elem.get(attr)) for attr in Sample._fields)`. -/
def sampleOfAttrs (ats : List (String × String)) : Sample :=
  Sample.ofFun (fun c =>
    match attrGet ats (Code.name c) with
    | some v => CellVal.str v
    | none => CellVal.absent)

/-- The sample built from an element that is never mutated, read off its
own attributes. -/
def elemToSample (e : XElem) : Sample :=
  sampleOfAttrs e.attrs

/-- The samples a run of events over non-root elements contributes to the
`XMLParser.http_samples` loop: `self.root.clear()` mutates only the root
object, so a non-root element still carries its own attributes at its
`"end"` event, and an `"end"` event of an `httpSample` element yields its
sample while every other event yields nothing. (Events that reference the
root object are handled by `samplesLoop`, which tracks the root's mutated
attributes.) -/
def nonRootSamples : List (String × XElem) → List Sample
  | [] => []
  | (ev, e) :: rest =>
      if ev = "end" ∧ e.tag = "httpSample" then elemToSample e :: nonRootSamples rest
      else nonRootSamples rest

mutual
/-- The `httpSample` elements of a tree in end-tag (post-) order: the
order in which their `"end"` events occur. -/
def postHttpElem : XElem → List XElem
  | XElem.mk tg ats children =>
      postHttpForest children ++
        (if tg = "httpSample" then [XElem.mk tg ats children] else [])
/-- End-tag order collection over a sibling sequence. -/
def postHttpForest : XForest → List XElem
  | XForest.nil => []
  | XForest.cons e rest => postHttpElem e ++ postHttpForest rest
end

mutual
/-- The `httpSample` elements of a tree in document (start-tag) order. -/
def docOrderHttpElem : XElem → List XElem
  | XElem.mk tg ats children =>
      (if tg = "httpSample" then [XElem.mk tg ats children] else []) ++
        docOrderHttpForest children
/-- Document-order collection over a sibling sequence. -/
def docOrderHttpForest : XForest → List XElem
  | XForest.nil => []
  | XForest.cons e rest => docOrderHttpElem e ++ docOrderHttpForest rest
end

/-- The `XMLParser` object after `__init__`: the recorded `version`
attribute of the root and the not-yet-consumed rest of the event
stream. -/
structure XMLParser where
  version : Option String
  context : List (String × XElem)

/-- `XMLParser.__init__` on an event stream: `event, self.root =
self.context.next()` takes the first event's element as the root and
records `self.root.get('version')`; an exhausted stream raises
`StopIteration`, modelled `none`. -/
def XMLParser.ofEvents : List (String × XElem) → Option XMLParser
  | [] => none
  | (_, root) :: rest => some { version := attrGet root.attrs "version", context := rest }

/-- `XMLParser` construction on a well-formed document: the incremental
parse of the document drives `ofEvents`. -/
def XMLParser.ofDoc (doc : XElem) : Option XMLParser :=
  XMLParser.ofEvents (xmlEvents doc)

/-- An element reference as the `http_samples` loop sees it: either the
root object stored in `self.root` — the one object `self.root.clear()`
ever mutates, whose live attributes therefore live in the loop's state —
or any other element object, which is never mutated and so is carried by
value. -/
inductive ElemRef where
  | root
  | other (e : XElem)

/-- Resolution of a reference against the (original) root element. -/
def ElemRef.resolve (root : XElem) : ElemRef → XElem
  | .root => root
  | .other e => e

/-- The event stream the `http_samples` loop consumes on a well-formed
document, with references made explicit: `__init__` has consumed the
root's `"start"` event, the events of the root's children follow, and the
final event is the root's own `"end"` event — the only remaining event
that references the root object, since the root strictly contains every
other element of the document. -/
def contextRefEvents (doc : XElem) : List (String × ElemRef) :=
  match doc with
  | XElem.mk _ _ children =>
      (forestEvents children).map (fun p => (p.1, ElemRef.other p.2)) ++
        [("end", ElemRef.root)]

/-- The loop of `XMLParser.http_samples`, with the `self.root` mutation
explicit: `rootAttrs` is the root object's current attribute dictionary.
At each event, an `"end"` event of an element tagged `httpSample` yields
the sample of that element's current attributes — the root's live
`rootAttrs` when the event references the root; then `self.root.clear()`
erases the root's attributes (and its accumulated children, tracked by
`clearStep`), so the recursion continues with empty `rootAttrs`. The
root's tag is untouched by `clear()`. -/
def samplesLoop (rootTag : String) (rootAttrs : List (String × String)) :
    List (String × ElemRef) → List Sample
  | [] => []
  | (ev, ElemRef.other e) :: rest =>
      if ev = "end" ∧ e.tag = "httpSample" then
        elemToSample e :: samplesLoop rootTag [] rest
      else samplesLoop rootTag [] rest
  | (ev, ElemRef.root) :: rest =>
      if ev = "end" ∧ rootTag = "httpSample" then
        sampleOfAttrs rootAttrs :: samplesLoop rootTag [] rest
      else samplesLoop rootTag [] rest

/-- All samples the XML parser yields on a well-formed document:
`__init__` stores the root object (`self.root`, with its attributes still
intact) and the remaining event stream, then `http_samples` runs the loop
over it. -/
def xmlParserSamples (doc : XElem) : List Sample :=
  samplesLoop doc.tag doc.attrs (contextRefEvents doc)

/-- One iteration of the `XMLParser.http_samples` loop, as it acts on the
memory state `(depth, rootChildren)`: `depth` counts the currently open
elements below the root, and `rootChildren` are the children accumulated
on the root element (`iterparse` attaches a depth-one element to the root
at its `"start"` event). The iteration body ends with `self.root.clear()`,
which empties the root's accumulated children. -/
def clearStep (st : Nat × List XElem) (ev : String × XElem) : Nat × List XElem :=
  let st1 : Nat × List XElem :=
    if ev.1 = "start" then
      (st.1 + 1, if st.1 = 0 then st.2 ++ [ev.2] else st.2)
    else
      (st.1 - 1, st.2)
  (st1.1, [])

/-!
Dictionary-row lemmas: how `row.get` behaves on a `DictReader` row with
distinct fieldnames.
-/

theorem dictZip_key_mem (fns : List String) :
    ∀ (row : List String) (p : String × Option String), p ∈ dictZip fns row → p.1 ∈ fns := by
  induction fns with
  | nil =>
      intro row p hp
      simp [dictZip] at hp
  | cons f fs ih =>
      intro row p hp
      cases row with
      | nil =>
          simp only [dictZip, List.mem_cons] at hp
          rcases hp with h | h
          · simp [h]
          · exact List.mem_cons_of_mem _ (ih [] p h)
      | cons r rs =>
          simp only [dictZip, List.mem_cons] at hp
          rcases hp with h | h
          · simp [h]
          · exact List.mem_cons_of_mem _ (ih rs p h)

theorem dictZip_filter_eq_nil (fns row : List String) (k : String) (hk : k ∉ fns) :
    (dictZip fns row).filter (fun p => p.1 = k) = [] := by
  apply List.filter_eq_nil_iff.mpr
  intro p hp
  simp only [decide_eq_true_eq]
  intro hpk
  exact hk (hpk ▸ dictZip_key_mem fns row p hp)

theorem dictGet_not_mem (fns row : List String) (k : String) (hk : k ∉ fns) :
    dictGet (dictZip fns row) k = none := by
  unfold dictGet
  rw [dictZip_filter_eq_nil fns row k hk]
  rfl

theorem dictGet_cons_ne (f : String) (v : Option String) (d : List (String × Option String))
    (k : String) (hfk : ¬f = k) :
    dictGet ((f, v) :: d) k = dictGet d k := by
  unfold dictGet
  rw [List.filter_cons]
  simp [hfk]

theorem dictGet_nodup (fns : List String) :
    ∀ (row : List String) (k : String) (i : Nat), fns.Nodup → fns.get? i = some k →
      dictGet (dictZip fns row) k = some (row.get? i) := by
  induction fns with
  | nil =>
      intro row k i _ hget
      simp at hget
  | cons f fs ih =>
      intro row k i hnd hget
      have hf : f ∉ fs := (List.nodup_cons.mp hnd).1
      have hnd' : fs.Nodup := (List.nodup_cons.mp hnd).2
      cases i with
      | zero =>
          have hk : f = k := by simpa using hget
          subst hk
          cases row with
          | nil =>
              show dictGet ((f, none) :: dictZip fs []) f = some ([].get? 0)
              unfold dictGet
              rw [List.filter_cons]
              simp [dictZip_filter_eq_nil fs [] f hf]
          | cons r rs =>
              show dictGet ((f, some r) :: dictZip fs rs) f = some ((r :: rs).get? 0)
              unfold dictGet
              rw [List.filter_cons]
              simp [dictZip_filter_eq_nil fs rs f hf]
      | succ n =>
          have hget' : fs.get? n = some k := by simpa using hget
          have hfk : ¬f = k := by
            intro h
            exact hf (h ▸ List.get?_mem hget')
          cases row with
          | nil =>
              show dictGet ((f, none) :: dictZip fs []) k = some ([].get? (n + 1))
              rw [dictGet_cons_ne f none _ k hfk, ih [] k n hnd' hget']
              rfl
          | cons r rs =>
              show dictGet ((f, some r) :: dictZip fs rs) k = some ((r :: rs).get? (n + 1))
              rw [dictGet_cons_ne f (some r) _ k hfk, ih rs k n hnd' hget']
              rfl

theorem rowGet_idx (fns row : List String) (k : String) (i : Nat) (hnd : fns.Nodup)
    (hi : fns.get? i = some k) :
    rowGet fns row (some k) =
      (match row.get? i with
       | some v => CellVal.str v
       | none => CellVal.absent) := by
  simp only [rowGet]
  rw [dictGet_nodup fns row k i hnd hi]
  cases row.get? i <;> rfl

theorem rowGet_not_mem (fns row : List String) (k : String) (hk : k ∉ fns) :
    rowGet fns row (some k) = CellVal.absent := by
  simp only [rowGet]
  rw [dictGet_not_mem fns row k hk]

/-- Modelled from the spec's words, for comparison with the code: "looking
up the field mapping table to find the CSV column header that corresponds
to that code; if a CSV column header exists and that column is present in
the row, use its value, otherwise use the absent-marker". The column is
present in the row when the header contains it at a position the row
reaches. -/
def specLookup (header row : List String) (h : String) : CellVal :=
  match header.findIdx? (fun x => x = h) with
  | none => CellVal.absent
  | some i =>
      match row.get? i with
      | some v => CellVal.str v
      | none => CellVal.absent

theorem csvLoop_eq_filter_map (fieldnames : List String) (rows : List (List String)) :
    csvLoop fieldnames rows =
      (rows.filter (fun r => !r.isEmpty)).map (rowToSample fieldnames) := by
  induction rows with
  | nil => rfl
  | cons row rest ih =>
      by_cases h : row = []
      · subst h
        simpa [csvLoop] using ih
      · rw [csvLoop, if_neg h, List.filter_cons]
        have : (!row.isEmpty) = true := by
          simp [List.isEmpty_iff, h]
        rw [this]
        simp [ih]

/-!
XML event-stream lemmas.
-/

theorem nonRootSamples_append (a b : List (String × XElem)) :
    nonRootSamples (a ++ b) = nonRootSamples a ++ nonRootSamples b := by
  induction a with
  | nil => rfl
  | cons e rest ih =>
      obtain ⟨ev, el⟩ := e
      by_cases h : ev = "end" ∧ el.tag = "httpSample"
      · simp [nonRootSamples, h, ih]
      · simp [nonRootSamples, h, ih]

mutual
theorem nonRootSamples_xmlEvents :
    ∀ e : XElem, nonRootSamples (xmlEvents e) = (postHttpElem e).map elemToSample
  | XElem.mk tg ats children => by
      rw [xmlEvents, postHttpElem]
      have hstart : nonRootSamples
          (("start", XElem.mk tg ats children) ::
            (forestEvents children ++ [("end", XElem.mk tg ats children)])) =
          nonRootSamples (forestEvents children ++ [("end", XElem.mk tg ats children)]) := by
        rw [nonRootSamples]
        simp
      rw [hstart, nonRootSamples_append, nonRootSamples_forestEvents children,
        List.map_append]
      by_cases h : tg = "httpSample"
      · simp [nonRootSamples, XElem.tag, h]
      · simp [nonRootSamples, XElem.tag, h]
theorem nonRootSamples_forestEvents :
    ∀ f : XForest, nonRootSamples (forestEvents f) = (postHttpForest f).map elemToSample
  | XForest.nil => rfl
  | XForest.cons e rest => by
      rw [forestEvents, postHttpForest, nonRootSamples_append,
        nonRootSamples_xmlEvents e, nonRootSamples_forestEvents rest, List.map_append]
end

theorem xmlEvents_ne_nil (e : XElem) : xmlEvents e ≠ [] := by
  cases e with
  | mk tg ats children => simp [xmlEvents]

theorem forestEvents_cons_not_empty (e : XElem) (f : XForest) :
    (forestEvents (XForest.cons e f)).isEmpty = false := by
  rw [forestEvents]
  cases e with
  | mk tg ats children => simp [xmlEvents]

theorem samplesLoop_map_other (evs : List (String × XElem)) :
    ∀ (rootTag : String) (rootAttrs : List (String × String))
      (rest : List (String × ElemRef)),
      samplesLoop rootTag rootAttrs
          (evs.map (fun p => (p.1, ElemRef.other p.2)) ++ rest) =
        nonRootSamples evs ++
          samplesLoop rootTag (if evs.isEmpty then rootAttrs else []) rest := by
  induction evs with
  | nil =>
      intro tg ats rest
      simp [nonRootSamples]
  | cons p tail ih =>
      intro tg ats rest
      obtain ⟨ev, e⟩ := p
      by_cases h : ev = "end" ∧ e.tag = "httpSample"
      · simp [samplesLoop, nonRootSamples, h, ih]
      · simp [samplesLoop, nonRootSamples, h, ih]

theorem contextRefEvents_resolve (doc : XElem) :
    (contextRefEvents doc).map (fun p => (p.1, p.2.resolve doc)) =
      (xmlEvents doc).drop 1 := by
  cases doc with
  | mk tg ats children =>
      rw [contextRefEvents, xmlEvents]
      have hid : (fun p => ((p : String × XElem).1,
          ElemRef.resolve (XElem.mk tg ats children) (ElemRef.other p.2))) =
          fun p => p :=
        funext fun p => rfl
      simp only [List.map_append, List.map_map, Function.comp_def, hid]
      simp [ElemRef.resolve]

theorem clearStep_snd (st : Nat × List XElem) (ev : String × XElem) :
    (clearStep st ev).2 = [] := rfl

theorem foldl_clearStep_ne_nil (evs : List (String × XElem)) :
    ∀ st0 : Nat × List XElem, evs ≠ [] → (evs.foldl clearStep st0).2 = [] := by
  induction evs with
  | nil =>
      intro st0 h
      exact absurd rfl h
  | cons e rest ih =>
      intro st0 _
      rw [List.foldl_cons]
      cases rest with
      | nil => exact clearStep_snd st0 e
      | cons e2 rest2 => exact ih (clearStep st0 e) (by simp)

/-!
Claim theorems.
-/

/-- C1, counterexample: the code `it` is mapped to `None` by
`CSV_FIELDNAMES`, although it is not one of the six codes the claim
allows to lack a CSV equivalent. -/
theorem fieldnames_it_has_no_csv_equivalent :
    CSV_FIELDNAMES Code.it = none ∧
      Code.it ∉ [Code.de, Code.ec, Code.hn, Code.na, Code.ng, Code.sc] := by
  decide

/-- C1, amended: the field mapping table maps exactly seven of the 17
short codes — de, ec, hn, it, na, ng, sc — to "no equivalent", and maps
every other code to a CSV column-header string. -/
theorem fieldnames_none_iff_mem_seven :
    (∀ c : Code,
      (CSV_FIELDNAMES c = none ↔
        c ∈ [Code.de, Code.ec, Code.hn, Code.it, Code.na, Code.ng, Code.sc]) ∧
      ((CSV_FIELDNAMES c).isSome = true ↔
        c ∉ [Code.de, Code.ec, Code.hn, Code.it, Code.na, Code.ng, Code.sc])) ∧
    (Code.all.filter (fun c => (CSV_FIELDNAMES c).isNone)).length = 7 := by
  constructor
  · intro c
    cases c <;> exact ⟨by decide, by decide⟩
  · decide

/-- C2, counterexample: on a data row with more values than the header
has columns, a code whose mapping is "no equivalent" receives the row
reader's restkey list of the extra cells, not the absent-marker. -/
theorem no_equiv_code_gets_restkey_on_long_row :
    (rowToSample ["elapsed"] ["120", "x"]).get Code.de = CellVal.extras ["x"] ∧
      CellVal.extras ["x"] ≠ CellVal.absent := by
  decide

/-- C2, amended: for every data row with at most as many values as the
header has columns, each short code whose field-mapping entry is "no
equivalent" yields the absent-marker in the produced Sample. -/
theorem no_equiv_code_absent_of_row_le_header :
    ∀ (fieldnames row : List String) (c : Code),
      CSV_FIELDNAMES c = none → row.length ≤ fieldnames.length →
      (rowToSample fieldnames row).get c = CellVal.absent := by
  intro fns row c hc hle
  rw [rowToSample, Sample.get_ofFun, hc]
  simp only [rowGet]
  rw [if_neg (by omega)]

/-- C2, witness for the amended theorem at a concrete row. -/
theorem no_equiv_code_absent_witness :
    CSV_FIELDNAMES Code.de = none ∧
      (["120"] : List String).length ≤ (["elapsed"] : List String).length ∧
      (rowToSample ["elapsed"] ["120"]).get Code.de = CellVal.absent :=
  ⟨by decide, by decide,
    no_equiv_code_absent_of_row_le_header ["elapsed"] ["120"] Code.de (by decide) (by decide)⟩

/-- C3: the factory classifies a source by its first line only — a first
line starting with `<?xml` gives the XML parser on that source, any other
first line gives the CSV parser on that source. -/
theorem createParser_classifies_by_first_line :
    ∀ source : List String,
      (createParser source = Parser.xml source ↔
        (readline source).startsWith "<?xml" = true) ∧
      (createParser source = Parser.csv source ↔
        ¬(readline source).startsWith "<?xml" = true) ∧
      (∀ (l : String) (r1 r2 : List String),
        (createParser (l :: r1)).isXml = (createParser (l :: r2)).isXml) := by
  intro source
  refine ⟨?_, ?_, ?_⟩
  · by_cases h : (readline source).startsWith "<?xml" = true
    · simp [createParser, h]
    · simp [createParser, h]
  · by_cases h : (readline source).startsWith "<?xml" = true
    · simp [createParser, h]
    · simp [createParser, h]
  · intro l r1 r2
    by_cases h : l.startsWith "<?xml" = true
    · simp [createParser, readline, h, Parser.isXml]
    · simp [createParser, readline, h, Parser.isXml]

/-- A document with one `httpSample` nested inside another. -/
def nestedDoc : XElem :=
  XElem.mk "results" [("version", "1")]
    (XForest.cons
      (XElem.mk "httpSample" [("lb", "outer")]
        (XForest.cons (XElem.mk "httpSample" [("lb", "inner")] XForest.nil) XForest.nil))
      XForest.nil)

/-- C4, counterexample: with one `httpSample` nested inside another, the
parser yields the inner sample first, so the yielded sequence is not the
document-order (start-tag order) sequence of `httpSample` elements. -/
theorem xml_samples_not_document_order :
    xmlParserSamples nestedDoc ≠ (docOrderHttpElem nestedDoc).map elemToSample := by
  decide

/-- C4, amended: for every well-formed XML input the parser yields exactly
one Sample per `httpSample` element, in end-tag (post-) order — which is
document order whenever no `httpSample` nests inside another — and no
Sample for any other element. For every non-root `httpSample` element each
of the 17 fields equals the identically-named attribute's value verbatim
when present and the absent-marker when not; when the root element is
itself an `httpSample`, its sample is built the same way from its
attributes if the root is childless, and has all 17 fields absent
otherwise, because the per-event `self.root.clear()` has already erased
the root's attributes when its end event arrives. -/
theorem xml_samples_end_tag_order :
    ∀ (tg : String) (ats : List (String × String)) (children : XForest)
      (e : XElem) (c : Code),
      xmlParserSamples (XElem.mk tg ats children) =
        (postHttpForest children).map elemToSample ++
          (if tg = "httpSample" then
            [sampleOfAttrs
              (match children with
               | XForest.nil => ats
               | XForest.cons _ _ => [])]
           else []) ∧
      (elemToSample e).get c =
        (match attrGet e.attrs (Code.name c) with
         | some v => CellVal.str v
         | none => CellVal.absent) := by
  intro tg ats children e c
  constructor
  · show samplesLoop tg ats (contextRefEvents (XElem.mk tg ats children)) = _
    cases children with
    | nil =>
        by_cases h : tg = "httpSample"
        · simp [contextRefEvents, forestEvents, samplesLoop, postHttpForest, h]
        · simp [contextRefEvents, forestEvents, samplesLoop, postHttpForest, h]
    | cons c0 cs =>
        rw [contextRefEvents, samplesLoop_map_other, forestEvents_cons_not_empty c0 cs]
        by_cases h : tg = "httpSample"
        · simp [samplesLoop, h, nonRootSamples_forestEvents (XForest.cons c0 cs)]
        · simp [samplesLoop, h, nonRootSamples_forestEvents (XForest.cons c0 cs)]
  · rw [elemToSample, sampleOfAttrs, Sample.get_ofFun]

/-- C5: every data row yields exactly one Sample, in row order (the header
row and blank rows yield none), and a code with a mapped CSV column takes
that column's value when the row reaches the column's position and the
absent-marker otherwise, as the spec-side `specLookup` states. -/
theorem csv_samples_rowwise_and_mapped_columns :
    ∀ (header : List String) (rows : List (List String)) (row : List String)
      (c : Code) (h : String),
      header.Nodup → CSV_FIELDNAMES c = some h →
      csvSamples (header :: rows) =
        (rows.filter (fun r => !r.isEmpty)).map (rowToSample header) ∧
      (rowToSample header row).get c = specLookup header row h := by
  intro header rows row c h hnd hc
  constructor
  · exact csvLoop_eq_filter_map header rows
  · cases hidx : header.findIdx? (fun x => x = h) with
    | none =>
        have hmem : h ∉ header := by
          intro hmem
          have := List.findIdx?_eq_none_iff.mp hidx h hmem
          simp at this
        rw [rowToSample, Sample.get_ofFun, hc, rowGet_not_mem header row h hmem]
        simp [specLookup, hidx]
    | some i =>
        have hilen : i < header.length := (List.findIdx?_eq_some_iff_getElem.mp hidx).1
        have hgeti : header.get? i = some h := by
          have hpi := (List.findIdx?_eq_some_iff_getElem.mp hidx).2.1
          have : header[i] = h := by simpa using hpi
          rw [List.get?_eq_getElem?, List.getElem?_eq_getElem hilen, this]
        rw [rowToSample, Sample.get_ofFun, hc, rowGet_idx header row h i hnd hgeti]
        simp only [specLookup, hidx]

/-- C5, witness at a concrete CSV source with a blank row. -/
theorem csv_samples_rowwise_witness :
    (["elapsed", "success"] : List String).Nodup ∧
      CSV_FIELDNAMES Code.s = some "success" ∧
      (csvSamples ([["elapsed", "success"], ["120", "true"], [], ["99"]]) =
        (([["120", "true"], [], ["99"]] : List (List String)).filter
          (fun r => !r.isEmpty)).map (rowToSample ["elapsed", "success"]) ∧
      (rowToSample ["elapsed", "success"] ["99"]).get Code.s =
        specLookup ["elapsed", "success"] ["99"] "success") :=
  ⟨by decide, by decide,
    csv_samples_rowwise_and_mapped_columns ["elapsed", "success"]
      [["120", "true"], [], ["99"]] ["99"] Code.s "success" (by decide) (by decide)⟩

/-- C6: every Sample has exactly 17 fields, in the fixed order by, de, dt,
ec, hn, it, lb, lt, na, ng, rc, rm, s, sc, t, tn, ts, each holding a value
or the absent-marker. -/
theorem sample_always_17_fields_fixed_order :
    ∀ smp : Sample,
      smp.toList = Code.all.map smp.get ∧ smp.toList.length = 17 ∧ Code.all.Nodup := by
  intro smp
  exact ⟨rfl, rfl, by decide⟩

/-- C7: after handling each parse event — start or end, `httpSample` or
not — the loop state of `XMLParser.http_samples` has the root's
accumulated children cleared. -/
theorem root_children_cleared_after_each_event :
    ∀ (evs : List (String × XElem)) (st0 : Nat × List XElem) (n : Nat),
      n < evs.length →
      ((evs.take (n + 1)).foldl clearStep st0).2 = [] := by
  intro evs st0 n hn
  apply foldl_clearStep_ne_nil
  intro h
  have hlen := congrArg List.length h
  rw [List.length_take] at hlen
  simp only [List.length_nil] at hlen
  omega

/-- C7, witness at a concrete one-event stream. -/
theorem root_children_cleared_witness :
    0 < ([("start", XElem.mk "results" [] XForest.nil)].length) ∧
      (([("start", XElem.mk "results" [] XForest.nil)].take (0 + 1)).foldl
        clearStep (0, [])).2 = [] :=
  ⟨by decide,
    root_children_cleared_after_each_event
      [("start", XElem.mk "results" [] XForest.nil)] (0, []) 0 (by decide)⟩

/-- C8: constructing the XML parser consumes the first event of the
incremental parse — the start event of the document's root — and records
the root's `version` attribute (absent when missing) as the parser's
version metadata. -/
theorem xmlparser_consumes_root_and_records_version :
    ∀ doc : XElem,
      (xmlEvents doc).head? = some ("start", doc) ∧
      XMLParser.ofDoc doc =
        some (XMLParser.mk (attrGet doc.attrs "version") ((xmlEvents doc).drop 1)) := by
  intro doc
  cases doc with
  | mk tg ats children => exact ⟨rfl, rfl⟩

/-- C9: invoking `http_samples` on the base parser fails immediately with
`NotImplementedError`, for every base-parser instance. -/
theorem baseparser_http_samples_is_error :
    ∀ p : BaseParser, p.http_samples = Except.error PyError.notImplementedError := by
  intro p
  rfl

/-- C10: a mapped CSV column present in the row with an empty value gives
the empty string in the Sample field, a value distinct from the
absent-marker. -/
theorem csv_empty_string_distinct_from_absent :
    ∀ (header row : List String) (c : Code) (h : String) (i : Nat),
      header.Nodup → CSV_FIELDNAMES c = some h → header.get? i = some h →
      row.get? i = some "" →
      (rowToSample header row).get c = CellVal.str "" ∧
        CellVal.str "" ≠ CellVal.absent := by
  intro header row c h i hnd hc hh hr
  constructor
  · rw [rowToSample, Sample.get_ofFun, hc, rowGet_idx header row h i hnd hh, hr]
  · decide

/-- C10, witness at a concrete row holding an empty cell. -/
theorem csv_empty_string_witness :
    (["label"] : List String).Nodup ∧ CSV_FIELDNAMES Code.lb = some "label" ∧
      (["label"] : List String).get? 0 = some "label" ∧
      ([""] : List String).get? 0 = some "" ∧
      ((rowToSample ["label"] [""]).get Code.lb = CellVal.str "" ∧
        CellVal.str "" ≠ CellVal.absent) :=
  ⟨by decide, by decide, by decide, by decide,
    csv_empty_string_distinct_from_absent ["label"] [""] Code.lb "label" 0
      (by decide) (by decide) (by decide) (by decide)⟩

end JTL
